import Mathlib

/-!
Verification development for the ERCOT ancillary-service monitor scraper
(`ancillary_scraper.py`).  The flattening engine `deep_flatten`, the noise
filter `filter_redundant_fields`, the record assembler `flatten_data` and the
persistence gate of `main` are embedded shallowly below; JSON numbers are
modelled as integers (the documents of interest carry integral metric values
and no claim depends on float arithmetic).
-/

set_option autoImplicit false

namespace Ercot

/-- JSON values as parsed by `response.json()`:
null, booleans, numbers, strings, arrays and objects
(objects keep insertion order, hence an association list). -/
inductive JsonValue where
  | null
  | bool (b : Bool)
  | num (n : Int)
  | str (s : String)
  | arr (elems : List JsonValue)
  | obj (fields : List (String × JsonValue))
deriving Repr

/-- Python truthiness (`if x:`): `None`, `False`, `0`, the empty string,
the empty list and the empty dict are falsy; everything else is truthy. -/
def pyTruthy : JsonValue → Bool
  | .null => false
  | .bool b => b
  | .num n => n != 0
  | .str s => s != ""
  | .arr elems => !elems.isEmpty
  | .obj fields => !fields.isEmpty

/-- `dict.get(k)` / association-list lookup (dict keys are unique, so first
match is the match). -/
def pyGet : List (String × JsonValue) → String → Option JsonValue
  | [], _ => none
  | (k', v') :: rest, k => if k' = k then some v' else pyGet rest k

/-- One Python dict assignment `d[k] = v`: update in place if the key exists,
otherwise append at the end (dicts preserve insertion order). -/
def dictInsert : List (String × JsonValue) → String × JsonValue → List (String × JsonValue)
  | [], p => [p]
  | (k, v) :: rest, (k', v') =>
      if k = k' then (k, v') :: rest else (k, v) :: dictInsert rest (k', v')

/-- Python `d.update(pairs)` / building a dict from a pair list:
assign each pair in order, last write wins. -/
def pyUpdate (d : List (String × JsonValue)) (l : List (String × JsonValue)) :
    List (String × JsonValue) :=
  l.foldl dictInsert d

/-- Python `dict(items)`: first-occurrence key order, last value wins. -/
def pyDict (l : List (String × JsonValue)) : List (String × JsonValue) :=
  pyUpdate [] l

/-- Python `s.replace(c, r)` for a single-character pattern and replacement:
characterwise substitution. -/
def replaceChar (s : String) (c r : Char) : String :=
  ⟨s.data.map fun x => if x = c then r else x⟩

/-- Python `s.upper()` on the ASCII key material handled here. -/
def pyUpper (s : String) : String :=
  ⟨s.data.map Char.toUpper⟩

/-- The key-cleaning step of `deep_flatten` (line 42):
`new_key.replace(" ", "_").replace(":", "_").replace(".", "_").replace("-", "_").upper()`. -/
def clean_key (s : String) : String :=
  pyUpper (replaceChar (replaceChar (replaceChar (replaceChar s ' ' '_') ':' '_') '.' '_') '-' '_')

/-- The field-name cleaning of the pair-list branch (line 52):
`item_list[0].replace(" ", "_").replace("-", "_").upper()`. -/
def clean_field_name (s : String) : String :=
  pyUpper (replaceChar (replaceChar s ' ' '_') '-' '_')

mutual

/-- Python `repr` for the values that can appear here (an identifier picked by
the record-list branch is interpolated into an f-string, which calls `str`,
which falls back to `repr` for containers).  String quoting is modelled for
strings without embedded quotes or escapes, the only kind the key material
contains. -/
def pyRepr : JsonValue → String
  | .null => "None"
  | .bool true => "True"
  | .bool false => "False"
  | .num n => toString n
  | .str s => "\x27" ++ s ++ "\x27"
  | .arr elems => "[" ++ ", ".intercalate (pyReprList elems) ++ "]"
  | .obj fields => "\x7b" ++ ", ".intercalate (pyReprFields fields) ++ "\x7d"

/-- `repr` of the elements of a list. -/
def pyReprList : List JsonValue → List String
  | [] => []
  | v :: rest => pyRepr v :: pyReprList rest

/-- `repr` of the entries of a dict. -/
def pyReprFields : List (String × JsonValue) → List String
  | [] => []
  | (k, v) :: rest => ("\x27" ++ k ++ "\x27: " ++ pyRepr v) :: pyReprFields rest

end

/-- Python `str(x)` as used by f-string interpolation. -/
def pyStr : JsonValue → String
  | .str s => s
  | v => pyRepr v

/-- Python `a or b` on optional values: keep `a` when it is truthy,
otherwise fall through to `b` (`dict.get` returning `None` is falsy). -/
def orTruthy (a b : Option JsonValue) : Option JsonValue :=
  match a with
  | some v => if pyTruthy v then some v else b
  | none => b

/-- `row.get(k)` where `row` is known to be a dict (the record-list branch is
guarded by `all(isinstance(item, dict) ...)`); on a non-dict it yields nothing. -/
def rowGet (row : JsonValue) (k : String) : Option JsonValue :=
  match row with
  | .obj fields => pyGet fields k
  | _ => none

/-- The identifier probe of the record-list branch (line 61):
`row.get('type') or row.get('service') or row.get('name') or row.get('label')
or f"INDEX{i}"`. -/
def item_id (row : JsonValue) (i : Nat) : String :=
  match orTruthy (rowGet row "type")
      (orTruthy (rowGet row "service")
        (orTruthy (rowGet row "name")
          (orTruthy (rowGet row "label") none))) with
  | some v => pyStr v
  | none => "INDEX" ++ toString i

/-- The per-element column prefix of the record-list branch (line 62):
`f"{new_key_clean}_{item_id}".upper().replace(" ", "_")`. -/
def item_pfx (new_key_clean : String) (row : JsonValue) (i : Nat) : String :=
  replaceChar (pyUpper (new_key_clean ++ "_" ++ item_id row i)) ' ' '_'

/-- Line 47: `all(isinstance(item, list) and len(item) == 2 and
isinstance(item[0], str) for item in value)`. -/
def is_key_value_list (elems : List JsonValue) : Bool :=
  elems.all fun item =>
    match item with
    | .arr [.str _, _] => true
    | _ => false

/-- Line 57: `all(isinstance(item, dict) for item in value)`. -/
def all_dicts (elems : List JsonValue) : Bool :=
  elems.all fun item =>
    match item with
    | .obj _ => true
    | _ => false

/-- The pair-list branch body (lines 51-54).  The guard `is_key_value_list`
makes every element a two-element list with a string head; other shapes are
unreachable and contribute nothing. -/
def pairItems (new_key_clean : String) : List JsonValue → List (String × JsonValue)
  | [] => []
  | .arr [.str s, v] :: rest =>
      (new_key_clean ++ "_" ++ clean_field_name s, v) :: pairItems new_key_clean rest
  | _ :: rest => pairItems new_key_clean rest

/-- The fallback branch body (lines 67-68): `(f"{new_key_clean}_INDEX_{i}", item)`. -/
def fallbackItems (new_key_clean : String) (i : Nat) :
    List JsonValue → List (String × JsonValue)
  | [] => []
  | item :: rest =>
      (new_key_clean ++ "_INDEX_" ++ toString i, item) :: fallbackItems new_key_clean (i + 1) rest

mutual

/-- `deep_flatten(dictionary, parent_key, separator)` (lines 32-78): a non-dict
input yields the empty record; a dict's items are processed in order and the
collected pairs are turned into a dict (last write wins). -/
def deep_flatten (dictionary : JsonValue) (parent_key separator : String) :
    List (String × JsonValue) :=
  match dictionary with
  | .obj fields => pyDict (flattenItems parent_key separator fields)
  | _ => []
termination_by (sizeOf dictionary, 0)

/-- The `for key, value in dictionary.items()` loop of `deep_flatten`. -/
def flattenItems (parent_key separator : String) :
    List (String × JsonValue) → List (String × JsonValue)
  | [] => []
  | (key, value) :: rest =>
      flattenEntry parent_key separator key value ++ flattenItems parent_key separator rest
termination_by l => (sizeOf l, 0)

/-- One iteration of the loop body of `deep_flatten` (lines 40-76). -/
def flattenEntry (parent_key separator key : String) (value : JsonValue) :
    List (String × JsonValue) :=
  let new_key := if parent_key ≠ "" then parent_key ++ separator ++ key else key
  let new_key_clean := clean_key new_key
  match value with
  | .arr elems =>
      if is_key_value_list elems then pairItems new_key_clean elems
      else if all_dicts elems then recordItems new_key_clean separator 0 elems
      else fallbackItems new_key_clean 0 elems
  | .obj fields => deep_flatten (.obj fields) new_key_clean separator
  | v => [(new_key_clean, v)]
termination_by (sizeOf value, 1)

/-- The record-list branch body (lines 59-63): derive a prefix per row and
recurse into the row. -/
def recordItems (new_key_clean separator : String) (i : Nat) :
    List JsonValue → List (String × JsonValue)
  | [] => []
  | row :: rest =>
      deep_flatten row (item_pfx new_key_clean row i) separator ++
        recordItems new_key_clean separator (i + 1) rest
termination_by l => (sizeOf l, 0)

end

/-- The suffix denylist of `filter_redundant_fields` (line 84). -/
def redundant_suffixes : List String :=
  ["_TYPE", "_SERVICE", "_NAME", "_LABEL", "_DESCRIPTION", "_KEY", "_VALUE"]

/-- Python `key.endswith(sfx)`: the suffix characters are a suffix of the
key characters. -/
def strEndsWith (s sfx : String) : Bool :=
  List.isSuffixOf sfx.data s.data

/-- The per-entry decision of `filter_redundant_fields` (lines 86-100):
keep the two system fields unconditionally, drop keys with a redundant
suffix, drop `None` and empty-string values, keep the rest. -/
def keep_field (key : String) (value : JsonValue) : Bool :=
  if key = "SCRAPE_TIMESTAMP_UTC" ∨ key = "ERCOT_LAST_UPDATE" then true
  else if redundant_suffixes.any (fun sfx => strEndsWith key sfx) then false
  else
    match value with
    | .null => false
    | .str s => s ≠ ""
    | _ => true

/-- `filter_redundant_fields(record)` (lines 81-102): rebuilding a dict from
the kept entries of a dict preserves order, i.e. it is a filter. -/
def filter_redundant_fields (record : List (String × JsonValue)) :
    List (String × JsonValue) :=
  record.filter fun kv => keep_field kv.1 kv.2

/-- `flatten_data(json_data)` (lines 105-126) with the scrape timestamp as a
parameter: seed the record, add `lastUpdate` when truthy, flatten the `data`
sub-object (defaulting to the empty dict) under the `DATA` prefix, filter.
A falsy document returns `None`; a truthy non-dict makes `.get` raise
`AttributeError`, so no record results either way (modelled as `none`). -/
def flatten_data (json_data : JsonValue) (scrape_timestamp : String) :
    Option (List (String × JsonValue)) :=
  if !pyTruthy json_data then none
  else
    match json_data with
    | .obj fields =>
        let flat_record : List (String × JsonValue) :=
          [("scrape_timestamp_utc", .str scrape_timestamp)]
        let flat_record :=
          match pyGet fields "lastUpdate" with
          | some v =>
              if pyTruthy v then dictInsert flat_record ("ercot_last_update", v)
              else flat_record
          | none => flat_record
        let raw_data := (pyGet fields "data").getD (.obj [])
        some (filter_redundant_fields (pyUpdate flat_record (deep_flatten raw_data "DATA" "_")))
    | _ => none

/-- The persistence gate of `main` (lines 162-182): `some record` models
"record saved and exit 0"; `none` models "exit 1, nothing persisted".
The record is saved exactly when the document was truthy and the assembled
record is truthy with more than 50 fields. -/
def main_outcome (json_data : JsonValue) (scrape_timestamp : String) :
    Option (List (String × JsonValue)) :=
  if pyTruthy json_data then
    match flatten_data json_data scrape_timestamp with
    | some flat_record =>
        if !flat_record.isEmpty && flat_record.length > 50 then some flat_record
        else none
    | none => none
  else none

/-- The characterwise effect of the key-cleaning step: punctuation becomes the
underscore, everything else is uppercased. -/
def cleanChar (c : Char) : Char :=
  Char.toUpper (if c = ' ' ∨ c = ':' ∨ c = '.' ∨ c = '-' then '_' else c)

/-- A scalar in the FlatRecord sense of the spec: Number, String or Bool. -/
def isScalar : JsonValue → Bool
  | .bool _ => true
  | .num _ => true
  | .str _ => true
  | _ => false

/-- A scalar or null: exactly the values Python's `isinstance` dispatch sends
to the scalar branch of `deep_flatten`. -/
def isScalarOrNull : JsonValue → Bool
  | .arr _ => false
  | .obj _ => false
  | _ => true

mutual

/-- Analysis predicate (not part of the program): every pair-list second
component and every element reached by the fallback branch, anywhere in the
tree, is a scalar or null.  The array classification mirrors the branch
structure of `deep_flatten`. -/
def scalarLeaves : JsonValue → Bool
  | .arr elems =>
      if is_key_value_list elems then
        elems.all fun item =>
          match item with
          | .arr [_, w] => isScalarOrNull w
          | _ => true
      else if all_dicts elems then scalarLeavesList elems
      else elems.all isScalarOrNull
  | .obj fields => scalarLeavesFields fields
  | _ => true

/-- `scalarLeaves` over the elements of a record list. -/
def scalarLeavesList : List JsonValue → Bool
  | [] => true
  | v :: rest => scalarLeaves v && scalarLeavesList rest

/-- `scalarLeaves` over the values of an object. -/
def scalarLeavesFields : List (String × JsonValue) → Bool
  | [] => true
  | (_, v) :: rest => scalarLeaves v && scalarLeavesFields rest

end

/-- Analysis predicate (not part of the program): the string begins with the
four characters `DATA`, the prefix under which `flatten_data` flattens the
payload. -/
def hasPfxDATA (s : String) : Prop :=
  ∃ t : List Char, s.data = 'D' :: 'A' :: 'T' :: 'A' :: t

/-! ### Helper lemmas -/

theorem string_ext {s t : String} (h : s.data = t.data) : s = t := by
  cases s
  cases t
  exact congrArg String.mk h

theorem toNat_char_ofNat (n : Nat) (h : n.isValidChar) : (Char.ofNat n).toNat = n := by
  unfold Char.ofNat
  rw [dif_pos h]
  rfl

theorem toNat_toUpper (c : Char) :
    c.toUpper.toNat = if 97 ≤ c.toNat ∧ c.toNat ≤ 122 then c.toNat - 32 else c.toNat := by
  simp only [Char.toUpper, ge_iff_le]
  split
  · rename_i h
    rw [toNat_char_ofNat _ (Or.inl (by omega))]
  · rfl

theorem toUpper_toUpper (c : Char) : c.toUpper.toUpper = c.toUpper := by
  have h1 := toNat_toUpper c
  have h2 := toNat_toUpper c.toUpper
  have hrange : ¬(97 ≤ c.toUpper.toNat ∧ c.toUpper.toNat ≤ 122) := by
    rw [h1]
    split <;> rename_i h <;> intro hcon <;> omega
  apply Char.ext
  apply UInt32.ext
  show c.toUpper.toUpper.toNat = c.toUpper.toNat
  rw [h2, if_neg hrange]

theorem toUpper_ne_of_ne (c d : Char) (hd : d.toNat < 65) (h : c ≠ d) :
    c.toUpper ≠ d := by
  intro he
  have ht := toNat_toUpper c
  rw [he] at ht
  by_cases hc : 97 ≤ c.toNat ∧ c.toNat ≤ 122
  · rw [if_pos hc] at ht
    omega
  · rw [if_neg hc] at ht
    apply h
    apply Char.ext
    apply UInt32.ext
    show c.toNat = d.toNat
    omega

theorem clean_key_data (s : String) : (clean_key s).data = s.data.map cleanChar := by
  simp only [clean_key, pyUpper, replaceChar, List.map_map]
  apply List.map_congr_left
  intro c _
  simp only [Function.comp_apply, cleanChar]
  by_cases h1 : c = ' ' <;> by_cases h2 : c = ':' <;> by_cases h3 : c = '.' <;>
    by_cases h4 : c = '-' <;> simp_all

theorem cleanChar_cleanChar (c : Char) : cleanChar (cleanChar c) = cleanChar c := by
  unfold cleanChar
  by_cases h : c = ' ' ∨ c = ':' ∨ c = '.' ∨ c = '-'
  · rw [if_pos h]
    decide
  · rw [if_neg h]
    push_neg at h
    obtain ⟨h1, h2, h3, h4⟩ := h
    have g1 := toUpper_ne_of_ne c ' ' (by decide) h1
    have g2 := toUpper_ne_of_ne c ':' (by decide) h2
    have g3 := toUpper_ne_of_ne c '.' (by decide) h3
    have g4 := toUpper_ne_of_ne c '-' (by decide) h4
    rw [if_neg (by simp [g1, g2, g3, g4])]
    exact toUpper_toUpper c

/-! ### Claims -/

/-- Claim C1: for every finite, acyclic JsonValue input, the flattening engine
`deep_flatten` terminates and returns a FlatRecord for every shape of input
(totality is witnessed by the function being definable by well-founded
recursion over the input tree), and the result is the empty record for any
non-object root. -/
theorem deep_flatten_total (v : JsonValue) (pk sep : String) :
    ∃ r : List (String × JsonValue), deep_flatten v pk sep = r ∧
      ((∀ fields, v ≠ JsonValue.obj fields) → r = []) := by
  refine ⟨deep_flatten v pk sep, rfl, fun h => ?_⟩
  cases v with
  | obj fields => exact absurd rfl (h fields)
  | null => simp [deep_flatten]
  | bool b => simp [deep_flatten]
  | num n => simp [deep_flatten]
  | str s => simp [deep_flatten]
  | arr elems => simp [deep_flatten]

/-- Witness for C1 at the non-object root `3`. -/
theorem deep_flatten_total_witness :
    ∃ r : List (String × JsonValue), deep_flatten (JsonValue.num 3) "" "_" = r ∧
      ((∀ fields, JsonValue.num 3 ≠ JsonValue.obj fields) → r = []) :=
  deep_flatten_total (JsonValue.num 3) "" "_"

/-- Claim C2: flattening `{"group": [["a", 1], ["b", 2]]}` produces the two
distinct entries `GROUP_A: 1` and `GROUP_B: 2`. -/
theorem pair_list_extraction :
    pyGet (deep_flatten (JsonValue.obj [("group", JsonValue.arr
        [JsonValue.arr [JsonValue.str "a", JsonValue.num 1],
         JsonValue.arr [JsonValue.str "b", JsonValue.num 2]])]) "" "_") "GROUP_A"
      = some (JsonValue.num 1) ∧
    pyGet (deep_flatten (JsonValue.obj [("group", JsonValue.arr
        [JsonValue.arr [JsonValue.str "a", JsonValue.num 1],
         JsonValue.arr [JsonValue.str "b", JsonValue.num 2]])]) "" "_") "GROUP_B"
      = some (JsonValue.num 2) ∧
    ("GROUP_A" : String) ≠ "GROUP_B" := by
  refine ⟨?_, ?_, by decide⟩ <;>
    simp [deep_flatten, flattenItems, flattenEntry, pairItems, pyDict, pyUpdate, dictInsert,
      is_key_value_list, clean_key, clean_field_name, pyUpper, replaceChar, pyGet]

/-- Claim C7: key normalization is idempotent: cleaning an already-cleaned
path string returns it unchanged. -/
theorem clean_key_idempotent (k : String) : clean_key (clean_key k) = clean_key k := by
  apply string_ext
  rw [clean_key_data, clean_key_data, List.map_map]
  apply List.map_congr_left
  intro c _
  exact cleanChar_cleanChar c

/-- Claim C10: a key holding an empty array is classified as a pair list and
contributes no entries; a key holding an empty object likewise contributes no
entries; in both cases the key never appears as a column. -/
theorem empty_collections_vanish (key pk sep : String) :
    flattenEntry pk sep key (JsonValue.arr []) = [] ∧
    flattenEntry pk sep key (JsonValue.obj []) = [] ∧
    deep_flatten (JsonValue.obj [(key, JsonValue.arr [])]) pk sep = [] ∧
    deep_flatten (JsonValue.obj [(key, JsonValue.obj [])]) pk sep = [] := by
  refine ⟨?_, ?_, ?_, ?_⟩ <;>
    simp [deep_flatten, flattenItems, flattenEntry, pairItems, is_key_value_list,
      pyDict, pyUpdate, dictInsert]

theorem item_id_type_truthy (row : JsonValue) (i : Nat) (v : JsonValue)
    (h : rowGet row "type" = some v) (ht : pyTruthy v = true) :
    item_id row i = pyStr v := by
  simp [item_id, orTruthy, h, ht]

theorem item_id_service_truthy (row : JsonValue) (i : Nat) (v : JsonValue)
    (h0 : ∀ w, rowGet row "type" = some w → pyTruthy w = false)
    (h : rowGet row "service" = some v) (ht : pyTruthy v = true) :
    item_id row i = pyStr v := by
  unfold item_id
  cases et : rowGet row "type" <;> simp_all [orTruthy]

theorem item_id_name_truthy (row : JsonValue) (i : Nat) (v : JsonValue)
    (h0 : ∀ w, rowGet row "type" = some w → pyTruthy w = false)
    (h1 : ∀ w, rowGet row "service" = some w → pyTruthy w = false)
    (h : rowGet row "name" = some v) (ht : pyTruthy v = true) :
    item_id row i = pyStr v := by
  unfold item_id
  cases et : rowGet row "type" <;> cases es : rowGet row "service" <;> simp_all [orTruthy]

theorem item_id_label_truthy (row : JsonValue) (i : Nat) (v : JsonValue)
    (h0 : ∀ w, rowGet row "type" = some w → pyTruthy w = false)
    (h1 : ∀ w, rowGet row "service" = some w → pyTruthy w = false)
    (h2 : ∀ w, rowGet row "name" = some w → pyTruthy w = false)
    (h : rowGet row "label" = some v) (ht : pyTruthy v = true) :
    item_id row i = pyStr v := by
  unfold item_id
  cases et : rowGet row "type" <;> cases es : rowGet row "service" <;>
    cases en : rowGet row "name" <;> simp_all [orTruthy]

theorem item_id_fallback (row : JsonValue) (i : Nat)
    (hall : ∀ k, k ∈ (["type", "service", "name", "label"] : List String) →
      ∀ v, rowGet row k = some v → pyTruthy v = false) :
    item_id row i = "INDEX" ++ toString i := by
  have ht : ∀ v, rowGet row "type" = some v → pyTruthy v = false :=
    fun v h => hall "type" (by simp) v h
  have hs : ∀ v, rowGet row "service" = some v → pyTruthy v = false :=
    fun v h => hall "service" (by simp) v h
  have hn : ∀ v, rowGet row "name" = some v → pyTruthy v = false :=
    fun v h => hall "name" (by simp) v h
  have hl : ∀ v, rowGet row "label" = some v → pyTruthy v = false :=
    fun v h => hall "label" (by simp) v h
  unfold item_id
  cases et : rowGet row "type" <;> cases es : rowGet row "service" <;>
    cases en : rowGet row "name" <;> cases el : rowGet row "label" <;>
    simp_all [orTruthy]

theorem record_list_rrs_x :
    pyGet (deep_flatten (JsonValue.obj [("rows", JsonValue.arr
        [JsonValue.obj [("type", JsonValue.str "RRS"), ("val", JsonValue.num 5)],
         JsonValue.obj [("name", JsonValue.str "X"), ("val", JsonValue.num 7)]])]) "" "_")
      "ROWS_RRS_VAL" = some (JsonValue.num 5) ∧
    pyGet (deep_flatten (JsonValue.obj [("rows", JsonValue.arr
        [JsonValue.obj [("type", JsonValue.str "RRS"), ("val", JsonValue.num 5)],
         JsonValue.obj [("name", JsonValue.str "X"), ("val", JsonValue.num 7)]])]) "" "_")
      "ROWS_X_VAL" = some (JsonValue.num 7) := by
  constructor <;>
    simp [deep_flatten, flattenItems, flattenEntry, recordItems, item_pfx, item_id, orTruthy,
      rowGet, pyGet, pyTruthy, is_key_value_list, all_dicts, pyDict, pyUpdate, dictInsert,
      clean_key, pyUpper, replaceChar, pyStr]

/-- Claim C3, counterexample: in `{"rows": [{"type": "", "val": 5}]}` the
field `"type"` is present, yet the engine derives the synthetic positional
identifier `INDEX0`, because the probe tests Python truthiness, not
presence. -/
theorem record_list_identifier_counterexample :
    rowGet (JsonValue.obj [("type", JsonValue.str ""), ("val", JsonValue.num 5)]) "type"
      = some (JsonValue.str "") ∧
    item_id (JsonValue.obj [("type", JsonValue.str ""), ("val", JsonValue.num 5)]) 0
      = "INDEX0" ∧
    pyGet (deep_flatten (JsonValue.obj [("rows", JsonValue.arr
        [JsonValue.obj [("type", JsonValue.str ""), ("val", JsonValue.num 5)]])]) "" "_")
      "ROWS_INDEX0_VAL" = some (JsonValue.num 5) := by
  refine (⟨by simp [rowGet, pyGet], ?_, ?_⟩) <;>
    simp [deep_flatten, flattenItems, flattenEntry, recordItems, item_pfx, item_id, orTruthy,
      rowGet, pyGet, pyTruthy, is_key_value_list, all_dicts, pyDict, pyUpdate, dictInsert,
      clean_key, pyUpper, replaceChar, pyStr, show toString (0 : Nat) = "0" from rfl]

/-- Claim C3, amended: the record-list branch probes the fields `type`,
`service`, `name`, `label` in priority order for a value that is truthy in
Python (non-null, non-false, non-zero, non-empty), and falls back to the
synthetic `INDEX{i}` exactly when none of the four has a truthy value;
flattening `{"rows": [{"type": "RRS", "val": 5}, {"name": "X", "val": 7}]}`
produces one column derived from `RRS` and one from `X`. -/
theorem record_list_identifier_truthiness :
    (∀ row i v, rowGet row "type" = some v → pyTruthy v = true →
      item_id row i = pyStr v) ∧
    (∀ row i v, (∀ w, rowGet row "type" = some w → pyTruthy w = false) →
      rowGet row "service" = some v → pyTruthy v = true → item_id row i = pyStr v) ∧
    (∀ row i v, (∀ w, rowGet row "type" = some w → pyTruthy w = false) →
      (∀ w, rowGet row "service" = some w → pyTruthy w = false) →
      rowGet row "name" = some v → pyTruthy v = true → item_id row i = pyStr v) ∧
    (∀ row i v, (∀ w, rowGet row "type" = some w → pyTruthy w = false) →
      (∀ w, rowGet row "service" = some w → pyTruthy w = false) →
      (∀ w, rowGet row "name" = some w → pyTruthy w = false) →
      rowGet row "label" = some v → pyTruthy v = true → item_id row i = pyStr v) ∧
    (∀ row i, (∀ k, k ∈ (["type", "service", "name", "label"] : List String) →
        ∀ v, rowGet row k = some v → pyTruthy v = false) →
      item_id row i = "INDEX" ++ toString i) ∧
    pyGet (deep_flatten (JsonValue.obj [("rows", JsonValue.arr
        [JsonValue.obj [("type", JsonValue.str "RRS"), ("val", JsonValue.num 5)],
         JsonValue.obj [("name", JsonValue.str "X"), ("val", JsonValue.num 7)]])]) "" "_")
      "ROWS_RRS_VAL" = some (JsonValue.num 5) ∧
    pyGet (deep_flatten (JsonValue.obj [("rows", JsonValue.arr
        [JsonValue.obj [("type", JsonValue.str "RRS"), ("val", JsonValue.num 5)],
         JsonValue.obj [("name", JsonValue.str "X"), ("val", JsonValue.num 7)]])]) "" "_")
      "ROWS_X_VAL" = some (JsonValue.num 7) :=
  ⟨item_id_type_truthy, item_id_service_truthy, item_id_name_truthy, item_id_label_truthy,
   item_id_fallback, record_list_rrs_x.1, record_list_rrs_x.2⟩

/-- Witness for the amended C3: a truthy `type` field is used verbatim, and a
row with none of the naming fields falls back to the positional identifier. -/
theorem record_list_identifier_truthiness_witness :
    item_id (JsonValue.obj [("type", JsonValue.str "RRS")]) 0 = "RRS" ∧
    item_id (JsonValue.obj [("val", JsonValue.num 5)]) 2 = "INDEX2" :=
  ⟨record_list_identifier_truthiness.1 (JsonValue.obj [("type", JsonValue.str "RRS")]) 0
      (JsonValue.str "RRS") (by simp [rowGet, pyGet]) (by decide),
   record_list_identifier_truthiness.2.2.2.2.1 (JsonValue.obj [("val", JsonValue.num 5)]) 2
      (by
        intro k hk v hv
        simp only [List.mem_cons, List.not_mem_nil, or_false] at hk
        rcases hk with h | h | h | h <;> subst h <;>
          simp [rowGet, pyGet] at hv)⟩

theorem pyGet_mem {l : List (String × JsonValue)} {k : String} {v : JsonValue}
    (h : pyGet l k = some v) : (k, v) ∈ l := by
  induction l with
  | nil => simp [pyGet] at h
  | cons p rest ih =>
    obtain ⟨k', v'⟩ := p
    by_cases hk : k' = k
    · subst hk
      simp [pyGet] at h
      simp [h]
    · simp [pyGet, hk] at h
      exact List.mem_cons_of_mem _ (ih h)

theorem keep_field_spec {k : String} {v : JsonValue} (h : keep_field k v = true) :
    k = "SCRAPE_TIMESTAMP_UTC" ∨ k = "ERCOT_LAST_UPDATE" ∨
      ((redundant_suffixes.any fun sfx => strEndsWith k sfx) = false ∧
        v ≠ JsonValue.null ∧ v ≠ JsonValue.str "") := by
  unfold keep_field at h
  by_cases h1 : k = "SCRAPE_TIMESTAMP_UTC" ∨ k = "ERCOT_LAST_UPDATE"
  · rcases h1 with h1 | h1
    · exact Or.inl h1
    · exact Or.inr (Or.inl h1)
  · rw [if_neg h1] at h
    by_cases h2 : (redundant_suffixes.any fun sfx => strEndsWith k sfx) = true
    · rw [if_pos h2] at h
      exact absurd h (by simp)
    · rw [if_neg h2] at h
      refine Or.inr (Or.inr ⟨by simpa using h2, ?_, ?_⟩)
      · intro he
        subst he
        simp at h
      · intro he
        subst he
        simp at h

/-- Claim C4, counterexample: the final assembled record for the document
`{"data": {"color": 5, "x": "label"}}` contains the column `DATA_COLOR`
(contributed by the key `"color"`) and the stored value `"label"`: neither a
`"color"` key nor a bare `"label"` string value is suppressed anywhere in the
pipeline. -/
theorem denylist_suppression_counterexample :
    flatten_data (JsonValue.obj [("data", JsonValue.obj
        [("color", JsonValue.num 5), ("x", JsonValue.str "label")])]) "T"
      = some [("scrape_timestamp_utc", JsonValue.str "T"),
              ("DATA_COLOR", JsonValue.num 5), ("DATA_X", JsonValue.str "label")] ∧
    pyGet [("scrape_timestamp_utc", JsonValue.str "T"),
           ("DATA_COLOR", JsonValue.num 5), ("DATA_X", JsonValue.str "label")]
      "DATA_COLOR" = some (JsonValue.num 5) ∧
    pyGet [("scrape_timestamp_utc", JsonValue.str "T"),
           ("DATA_COLOR", JsonValue.num 5), ("DATA_X", JsonValue.str "label")]
      "DATA_X" = some (JsonValue.str "label") := by
  have hd : deep_flatten (JsonValue.obj
      [("color", JsonValue.num 5), ("x", JsonValue.str "label")]) "DATA" "_"
      = [("DATA_COLOR", JsonValue.num 5), ("DATA_X", JsonValue.str "label")] := by
    simp [deep_flatten, flattenItems, flattenEntry, pyDict, pyUpdate, dictInsert,
      clean_key, pyUpper, replaceChar]
  have e1 : keep_field "scrape_timestamp_utc" (JsonValue.str "T") = true := by decide
  have e2 : keep_field "DATA_COLOR" (JsonValue.num 5) = true := by decide
  have e3 : keep_field "DATA_X" (JsonValue.str "label") = true := by decide
  refine ⟨?_, by simp [pyGet], by simp [pyGet]⟩
  simp [flatten_data, pyTruthy, pyGet, hd, pyUpdate, dictInsert,
    filter_redundant_fields, e1, e2, e3]

/-- Claim C4, amended: the suppression the pipeline actually performs: every
entry surviving `filter_redundant_fields` either is one of the two reserved
system columns, or has a key ending in none of the redundant suffixes
(`_TYPE`, `_SERVICE`, `_NAME`, `_LABEL`, `_DESCRIPTION`, `_KEY`, `_VALUE`)
and a value that is neither null nor the empty string.  Keys named `color`
and values equal to `"label"` are not suppressed. -/
theorem filter_suppression (record : List (String × JsonValue)) (k : String) (v : JsonValue)
    (h : pyGet (filter_redundant_fields record) k = some v) :
    k = "SCRAPE_TIMESTAMP_UTC" ∨ k = "ERCOT_LAST_UPDATE" ∨
      ((redundant_suffixes.any fun sfx => strEndsWith k sfx) = false ∧
        v ≠ JsonValue.null ∧ v ≠ JsonValue.str "") := by
  have hm := pyGet_mem h
  unfold filter_redundant_fields at hm
  exact keep_field_spec (List.mem_filter.mp hm).2

/-- Witness for the amended C4 on a surviving payload column. -/
theorem filter_suppression_witness :
    pyGet (filter_redundant_fields [("DATA_Y", JsonValue.num 3)]) "DATA_Y"
        = some (JsonValue.num 3) ∧
    ("DATA_Y" = "SCRAPE_TIMESTAMP_UTC" ∨ "DATA_Y" = "ERCOT_LAST_UPDATE" ∨
      ((redundant_suffixes.any fun sfx => strEndsWith "DATA_Y" sfx) = false ∧
        JsonValue.num 3 ≠ JsonValue.null ∧ JsonValue.num 3 ≠ JsonValue.str "")) :=
  ⟨by
    have e1 : keep_field "DATA_Y" (JsonValue.num 3) = true := by decide
    simp [filter_redundant_fields, e1, pyGet],
   filter_suppression [("DATA_Y", JsonValue.num 3)] "DATA_Y" (JsonValue.num 3)
     (by
        have e1 : keep_field "DATA_Y" (JsonValue.num 3) = true := by decide
        simp [filter_redundant_fields, e1, pyGet])⟩

theorem flatten_data_foo_eval :
    flatten_data (JsonValue.obj [("foo", JsonValue.num 1)]) "T"
      = some [("scrape_timestamp_utc", JsonValue.str "T")] := by
  have e1 : keep_field "scrape_timestamp_utc" (JsonValue.str "T") = true := by decide
  simp [flatten_data, pyTruthy, pyGet, deep_flatten, flattenItems, pyDict, pyUpdate,
    filter_redundant_fields, e1]

/-- Claim C8, counterexample: for the document `{"foo": 1}`, which lacks the
`"data"` wrapper, the assembled record holds only the seed timestamp column:
the root field `foo` does not appear under any name, because the assembler
substitutes an empty object, not the document root. -/
theorem data_wrapper_counterexample :
    flatten_data (JsonValue.obj [("foo", JsonValue.num 1)]) "T"
      = some [("scrape_timestamp_utc", JsonValue.str "T")] ∧
    pyGet [("scrape_timestamp_utc", JsonValue.str "T")] "DATA_FOO" = none ∧
    pyGet [("scrape_timestamp_utc", JsonValue.str "T")] "FOO" = none :=
  ⟨flatten_data_foo_eval, by simp [pyGet], by simp [pyGet]⟩

/-- Claim C8, amended: the assembler flattens the `"data"` sub-object when
present, and otherwise flattens an empty object, so for a document without
the wrapper only the seed columns (the scrape timestamp and, when truthy,
the upstream `lastUpdate` marker) can appear in the assembled record. -/
theorem payload_empty_without_data (fields : List (String × JsonValue)) (ts : String)
    (rec : List (String × JsonValue)) (k : String) (v : JsonValue)
    (hnd : pyGet fields "data" = none)
    (h : flatten_data (JsonValue.obj fields) ts = some rec)
    (hm : (k, v) ∈ rec) :
    k = "scrape_timestamp_utc" ∨ k = "ercot_last_update" := by
  have hde : deep_flatten (JsonValue.obj []) "DATA" "_" = [] := by
    simp [deep_flatten, flattenItems, pyDict, pyUpdate]
  by_cases hne : fields.isEmpty
  · simp [flatten_data, pyTruthy, hne] at h
  · have hobj : pyTruthy (JsonValue.obj fields) = true := by simp [pyTruthy, hne]
    cases elu : pyGet fields "lastUpdate" with
    | none =>
      simp [flatten_data, hobj, hnd, elu, hde, pyUpdate] at h
      subst h
      have := (List.mem_filter.mp hm).1
      simp at this
      exact Or.inl this.1
    | some u =>
      by_cases htu : pyTruthy u = true
      · simp [flatten_data, hobj, hnd, elu, htu, hde, pyUpdate, dictInsert] at h
        subst h
        have := (List.mem_filter.mp hm).1
        simp at this
        rcases this with ⟨h1, _⟩ | ⟨h1, _⟩
        · exact Or.inl h1
        · exact Or.inr h1
      · simp [flatten_data, hobj, hnd, elu, htu, hde, pyUpdate] at h
        subst h
        have := (List.mem_filter.mp hm).1
        simp at this
        exact Or.inl this.1

/-- Witness for the amended C8 on the wrapperless document `{"foo": 1}`. -/
theorem payload_empty_without_data_witness :
    flatten_data (JsonValue.obj [("foo", JsonValue.num 1)]) "T"
      = some [("scrape_timestamp_utc", JsonValue.str "T")] ∧
    ("scrape_timestamp_utc" = "scrape_timestamp_utc" ∨
      "scrape_timestamp_utc" = "ercot_last_update") :=
  ⟨flatten_data_foo_eval,
   payload_empty_without_data [("foo", JsonValue.num 1)] "T"
     [("scrape_timestamp_utc", JsonValue.str "T")] "scrape_timestamp_utc"
     (JsonValue.str "T") (by simp [pyGet]) flatten_data_foo_eval (by simp)⟩

/-- Claim C9: when the assembled record does not exceed the configured floor
of 50 columns (with at most two of them seed columns, this covers every
payload of fewer than 49 columns beyond the seeds), the run exits with an
error and nothing is persisted. -/
theorem confidence_floor (json_data : JsonValue) (ts : String)
    (rec : List (String × JsonValue))
    (h : flatten_data json_data ts = some rec) (hlen : rec.length ≤ 50) :
    main_outcome json_data ts = none := by
  unfold main_outcome
  cases ht : pyTruthy json_data
  · simp
  · have hgt : ¬ rec.length > 50 := by omega
    simp [ht, h, hgt]

/-- Witness for C9: a near-empty document is not persisted. -/
theorem confidence_floor_witness :
    main_outcome (JsonValue.obj [("foo", JsonValue.num 1)]) "T" = none :=
  confidence_floor (JsonValue.obj [("foo", JsonValue.num 1)]) "T"
    [("scrape_timestamp_utc", JsonValue.str "T")]
    flatten_data_foo_eval (by decide)

theorem mem_dictInsert {d : List (String × JsonValue)} {p kv : String × JsonValue}
    (h : kv ∈ dictInsert d p) : kv ∈ d ∨ kv = p := by
  induction d with
  | nil =>
    simp [dictInsert] at h
    exact Or.inr h
  | cons q rest ih =>
    obtain ⟨k, v⟩ := q
    obtain ⟨k', v'⟩ := p
    by_cases hk : k = k'
    · subst hk
      simp [dictInsert] at h
      rcases h with h | h
      · exact Or.inr (by simp [h])
      · exact Or.inl (List.mem_cons_of_mem _ h)
    · simp [dictInsert, hk] at h
      rcases h with h | h
      · exact Or.inl (by simp [h])
      · rcases ih h with h' | h'
        · exact Or.inl (List.mem_cons_of_mem _ h')
        · exact Or.inr h'

theorem mem_pyUpdate {d l : List (String × JsonValue)} {kv : String × JsonValue}
    (h : kv ∈ pyUpdate d l) : kv ∈ d ∨ kv ∈ l := by
  induction l generalizing d with
  | nil => exact Or.inl h
  | cons p rest ih =>
    have h' : kv ∈ pyUpdate (dictInsert d p) rest := h
    rcases ih h' with h'' | h''
    · rcases mem_dictInsert h'' with h3 | h3
      · exact Or.inl h3
      · exact Or.inr (by simp [h3])
    · exact Or.inr (List.mem_cons_of_mem _ h'')

theorem mem_pyDict {l : List (String × JsonValue)} {kv : String × JsonValue}
    (h : kv ∈ pyDict l) : kv ∈ l := by
  rcases mem_pyUpdate h with h' | h'
  · simp at h'
  · exact h'

theorem mem_flattenItems {pk sep : String} {fields : List (String × JsonValue)}
    {kv : String × JsonValue} (h : kv ∈ flattenItems pk sep fields) :
    ∃ key value, (key, value) ∈ fields ∧ kv ∈ flattenEntry pk sep key value := by
  induction fields with
  | nil => simp [flattenItems] at h
  | cons q rest ih =>
    obtain ⟨key, value⟩ := q
    rw [flattenItems] at h
    rcases List.mem_append.mp h with h' | h'
    · exact ⟨key, value, by simp, h'⟩
    · obtain ⟨key', value', hmem, hkv⟩ := ih h'
      exact ⟨key', value', List.mem_cons_of_mem _ hmem, hkv⟩

theorem mem_pairItems {nkc : String} {elems : List JsonValue} {kv : String × JsonValue}
    (h : kv ∈ pairItems nkc elems) :
    ∃ s w, JsonValue.arr [JsonValue.str s, w] ∈ elems ∧
      kv = (nkc ++ "_" ++ clean_field_name s, w) := by
  induction elems with
  | nil => simp [pairItems] at h
  | cons e rest ih =>
    match e with
    | .arr [.str s, w] =>
      rw [pairItems] at h
      rcases List.mem_cons.mp h with h' | h'
      · exact ⟨s, w, by simp, h'⟩
      · obtain ⟨s', w', hmem, hkv⟩ := ih h'
        exact ⟨s', w', List.mem_cons_of_mem _ hmem, hkv⟩
    | .null | .bool _ | .num _ | .str _ | .obj _ =>
      simp [pairItems] at h
      obtain ⟨s', w', hmem, hkv⟩ := ih h
      exact ⟨s', w', List.mem_cons_of_mem _ hmem, hkv⟩
    | .arr [] | .arr [_] =>
      simp [pairItems] at h
      obtain ⟨s', w', hmem, hkv⟩ := ih h
      exact ⟨s', w', List.mem_cons_of_mem _ hmem, hkv⟩
    | .arr ((JsonValue.null) :: _ :: _) | .arr ((JsonValue.bool _) :: _ :: _)
    | .arr ((JsonValue.num _) :: _ :: _) | .arr ((JsonValue.arr _) :: _ :: _)
    | .arr ((JsonValue.obj _) :: _ :: _) | .arr (_ :: _ :: _ :: _) =>
      simp [pairItems] at h
      obtain ⟨s', w', hmem, hkv⟩ := ih h
      exact ⟨s', w', List.mem_cons_of_mem _ hmem, hkv⟩

theorem mem_fallbackItems {nkc : String} {i : Nat} {elems : List JsonValue}
    {kv : String × JsonValue} (h : kv ∈ fallbackItems nkc i elems) :
    ∃ j : Nat, kv.1 = nkc ++ "_INDEX_" ++ toString j ∧ kv.2 ∈ elems := by
  induction elems generalizing i with
  | nil => simp [fallbackItems] at h
  | cons e rest ih =>
    rw [fallbackItems] at h
    rcases List.mem_cons.mp h with h' | h'
    · exact ⟨i, by simp [h'], by simp [h']⟩
    · obtain ⟨j, h1, h2⟩ := ih h'
      exact ⟨j, h1, List.mem_cons_of_mem _ h2⟩

theorem mem_recordItems {nkc sep : String} {i : Nat} {elems : List JsonValue}
    {kv : String × JsonValue} (h : kv ∈ recordItems nkc sep i elems) :
    ∃ row j, row ∈ elems ∧ kv ∈ deep_flatten row (item_pfx nkc row j) sep := by
  induction elems generalizing i with
  | nil => simp [recordItems] at h
  | cons row rest ih =>
    rw [recordItems] at h
    rcases List.mem_append.mp h with h' | h'
    · exact ⟨row, i, by simp, h'⟩
    · obtain ⟨row', j, hmem, hkv⟩ := ih h'
      exact ⟨row', j, List.mem_cons_of_mem _ hmem, hkv⟩

theorem hasPfxDATA_DATA : hasPfxDATA "DATA" := ⟨[], rfl⟩

theorem hasPfxDATA_append {s : String} (u : String) (h : hasPfxDATA s) :
    hasPfxDATA (s ++ u) := by
  obtain ⟨t, ht⟩ := h
  exact ⟨t ++ u.data, by rw [String.data_append, ht]; simp⟩

theorem hasPfxDATA_clean_key {s : String} (h : hasPfxDATA s) :
    hasPfxDATA (clean_key s) := by
  obtain ⟨t, ht⟩ := h
  refine ⟨t.map cleanChar, ?_⟩
  rw [clean_key_data, ht]
  simp [show cleanChar 'D' = 'D' from by decide, show cleanChar 'A' = 'A' from by decide,
    show cleanChar 'T' = 'T' from by decide]

theorem hasPfxDATA_pyUpper {s : String} (h : hasPfxDATA s) :
    hasPfxDATA (pyUpper s) := by
  obtain ⟨t, ht⟩ := h
  refine ⟨t.map Char.toUpper, ?_⟩
  show s.data.map Char.toUpper = _
  rw [ht]
  simp [show Char.toUpper 'D' = 'D' from by decide, show Char.toUpper 'A' = 'A' from by decide,
    show Char.toUpper 'T' = 'T' from by decide]

theorem hasPfxDATA_replaceChar {s : String} (c r : Char)
    (hc : c ≠ 'D' ∧ c ≠ 'A' ∧ c ≠ 'T') (h : hasPfxDATA s) :
    hasPfxDATA (replaceChar s c r) := by
  obtain ⟨t, ht⟩ := h
  refine ⟨t.map fun x => if x = c then r else x, ?_⟩
  show (s.data.map fun x => if x = c then r else x) = _
  rw [ht]
  simp [hc.1.symm, hc.2.1.symm, hc.2.2.symm]

theorem hasPfxDATA_ne_empty {s : String} (h : hasPfxDATA s) : s ≠ "" := by
  obtain ⟨t, ht⟩ := h
  intro he
  subst he
  simp at ht

theorem hasPfxDATA_ne_seeds {s : String} (h : hasPfxDATA s) :
    s ≠ "SCRAPE_TIMESTAMP_UTC" ∧ s ≠ "ERCOT_LAST_UPDATE" := by
  obtain ⟨t, ht⟩ := h
  constructor <;> intro he <;> subst he <;> simp at ht

theorem hasPfxDATA_item_pfx {nkc : String} (row : JsonValue) (i : Nat)
    (h : hasPfxDATA nkc) : hasPfxDATA (item_pfx nkc row i) :=
  hasPfxDATA_replaceChar ' ' '_' (by decide)
    (hasPfxDATA_pyUpper (hasPfxDATA_append _ (hasPfxDATA_append _ h)))

theorem deep_flatten_keys_data :
    ∀ (v : JsonValue) (pk sep : String), hasPfxDATA pk →
      ∀ kv ∈ deep_flatten v pk sep, hasPfxDATA kv.1 := by
  refine deep_flatten.induct
    (fun v pk sep => hasPfxDATA pk → ∀ kv ∈ deep_flatten v pk sep, hasPfxDATA kv.1)
    (fun pk sep fields => hasPfxDATA pk → ∀ kv ∈ flattenItems pk sep fields, hasPfxDATA kv.1)
    (fun pk sep key value => hasPfxDATA pk → ∀ kv ∈ flattenEntry pk sep key value, hasPfxDATA kv.1)
    (fun nkc sep i elems => hasPfxDATA nkc → ∀ kv ∈ recordItems nkc sep i elems, hasPfxDATA kv.1)
    ?_ ?_ ?_ ?_ ?_ ?_ ?_ ?_ ?_ ?_ ?_
  · intro pk sep fields ih hpk kv hkv
    rw [deep_flatten] at hkv
    exact ih hpk kv (mem_pyDict hkv)
  · intro d pk sep hno hpk kv hkv
    cases d with
    | obj fields => exact (hno fields rfl).elim
    | null => simp [deep_flatten] at hkv
    | bool b => simp [deep_flatten] at hkv
    | num n => simp [deep_flatten] at hkv
    | str s => simp [deep_flatten] at hkv
    | arr elems => simp [deep_flatten] at hkv
  · intro pk sep hpk kv hkv
    simp [flattenItems] at hkv
  · intro pk sep k v rest ih1 ih2 hpk kv hkv
    rw [flattenItems] at hkv
    rcases List.mem_append.mp hkv with h | h
    · exact ih1 hpk kv h
    · exact ih2 hpk kv h
  · intro pk sep key elems hkvl hpk kv hkv
    have hne : pk ≠ "" := hasPfxDATA_ne_empty hpk
    simp [flattenEntry, hkvl, hne] at hkv
    obtain ⟨s, w, _, hkveq⟩ := mem_pairItems hkv
    rw [hkveq]
    exact hasPfxDATA_append _ (hasPfxDATA_append _ (hasPfxDATA_clean_key
      (hasPfxDATA_append _ (hasPfxDATA_append _ hpk))))
  · intro pk sep key new_key nkc elems hnkvl hdicts ih hpk kv hkv
    have hne : pk ≠ "" := hasPfxDATA_ne_empty hpk
    simp [flattenEntry, hnkvl, hdicts, hne] at hkv
    have hnew : new_key = pk ++ sep ++ key := dif_pos hne
    have hnkeq : nkc = clean_key (pk ++ sep ++ key) := by
      show clean_key new_key = _
      rw [hnew]
    rw [hnkeq] at ih
    exact ih (hasPfxDATA_clean_key (hasPfxDATA_append _ (hasPfxDATA_append _ hpk))) kv hkv
  · intro pk sep key elems hnkvl hndicts hpk kv hkv
    have hne : pk ≠ "" := hasPfxDATA_ne_empty hpk
    simp [flattenEntry, hnkvl, hndicts, hne] at hkv
    obtain ⟨j, hk1, _⟩ := mem_fallbackItems hkv
    rw [hk1]
    exact hasPfxDATA_append _ (hasPfxDATA_append _ (hasPfxDATA_clean_key
      (hasPfxDATA_append _ (hasPfxDATA_append _ hpk))))
  · intro pk sep key new_key nkc fields ih hpk kv hkv
    have hne : pk ≠ "" := hasPfxDATA_ne_empty hpk
    simp [flattenEntry, hne] at hkv
    have hnew : new_key = pk ++ sep ++ key := dif_pos hne
    have hnkeq : nkc = clean_key (pk ++ sep ++ key) := by
      show clean_key new_key = _
      rw [hnew]
    rw [hnkeq] at ih
    exact ih (hasPfxDATA_clean_key (hasPfxDATA_append _ (hasPfxDATA_append _ hpk))) kv hkv
  · intro pk sep key v hnarr hnobj hpk kv hkv
    have hne : pk ≠ "" := hasPfxDATA_ne_empty hpk
    cases v with
    | arr elems => exact (hnarr elems rfl).elim
    | obj fields => exact (hnobj fields rfl).elim
    | null =>
      simp [flattenEntry, hne] at hkv
      subst hkv
      exact hasPfxDATA_clean_key (hasPfxDATA_append _ (hasPfxDATA_append _ hpk))
    | bool b =>
      simp [flattenEntry, hne] at hkv
      subst hkv
      exact hasPfxDATA_clean_key (hasPfxDATA_append _ (hasPfxDATA_append _ hpk))
    | num n =>
      simp [flattenEntry, hne] at hkv
      subst hkv
      exact hasPfxDATA_clean_key (hasPfxDATA_append _ (hasPfxDATA_append _ hpk))
    | str s =>
      simp [flattenEntry, hne] at hkv
      subst hkv
      exact hasPfxDATA_clean_key (hasPfxDATA_append _ (hasPfxDATA_append _ hpk))
  · intro nkc sep i hnkc kv hkv
    simp [recordItems] at hkv
  · intro nkc sep i row rest ih1 ih2 hnkc kv hkv
    rw [recordItems] at hkv
    rcases List.mem_append.mp hkv with h | h
    · exact ih1 (hasPfxDATA_item_pfx row i hnkc) kv h
    · exact ih2 hnkc kv h

theorem keep_field_null {k : String} (h : keep_field k JsonValue.null = true) :
    k = "SCRAPE_TIMESTAMP_UTC" ∨ k = "ERCOT_LAST_UPDATE" := by
  rcases keep_field_spec h with h' | h' | h'
  · exact Or.inl h'
  · exact Or.inr h'
  · exact absurd rfl h'.2.1

/-- Claim C5: a null value never survives into the final assembled record:
for every input document and timestamp, no column of the record produced by
`flatten_data` holds null.  The seed columns are never null, every payload
column carries the `DATA` prefix (so it cannot ride through the reserved-key
branch of the filter), and the filter drops null values. -/
theorem no_null_in_record (json_data : JsonValue) (ts : String)
    (rec : List (String × JsonValue)) (h : flatten_data json_data ts = some rec)
    (k : String) : pyGet rec k ≠ some JsonValue.null := by
  intro hk
  have hm : (k, JsonValue.null) ∈ rec := pyGet_mem hk
  cases json_data with
  | null => simp [flatten_data, pyTruthy] at h
  | bool b => simp [flatten_data, pyTruthy] at h
  | num n => simp [flatten_data, pyTruthy] at h
  | str s => simp [flatten_data, pyTruthy] at h
  | arr elems => simp [flatten_data, pyTruthy] at h
  | obj fields =>
    by_cases hne : fields.isEmpty
    · simp [flatten_data, pyTruthy, hne] at h
    · have hobj : pyTruthy (JsonValue.obj fields) = true := by simp [pyTruthy, hne]
      have hflat : ∀ kv ∈ deep_flatten ((pyGet fields "data").getD (JsonValue.obj []))
          "DATA" "_", hasPfxDATA kv.1 :=
        fun kv hkv => deep_flatten_keys_data _ "DATA" "_" hasPfxDATA_DATA kv hkv
      cases elu : pyGet fields "lastUpdate" with
      | none =>
        simp [flatten_data, hobj, elu] at h
        subst h
        obtain ⟨h1, h2⟩ := List.mem_filter.mp hm
        rcases mem_pyUpdate h1 with h3 | h3
        · simp at h3
        · have hdk := hasPfxDATA_ne_seeds (hflat _ h3)
          rcases keep_field_null h2 with h4 | h4
          · exact hdk.1 h4
          · exact hdk.2 h4
      | some u =>
        by_cases htu : pyTruthy u = true
        · simp [flatten_data, hobj, elu, htu, dictInsert] at h
          subst h
          obtain ⟨h1, h2⟩ := List.mem_filter.mp hm
          rcases mem_pyUpdate h1 with h3 | h3
          · simp at h3
            obtain ⟨h4, h5⟩ := h3
            subst h5
            simp [pyTruthy] at htu
          · have hdk := hasPfxDATA_ne_seeds (hflat _ h3)
            rcases keep_field_null h2 with h4 | h4
            · exact hdk.1 h4
            · exact hdk.2 h4
        · simp [flatten_data, hobj, elu, htu] at h
          subst h
          obtain ⟨h1, h2⟩ := List.mem_filter.mp hm
          rcases mem_pyUpdate h1 with h3 | h3
          · simp at h3
          · have hdk := hasPfxDATA_ne_seeds (hflat _ h3)
            rcases keep_field_null h2 with h4 | h4
            · exact hdk.1 h4
            · exact hdk.2 h4

/-- Witness for C5: the document `{"data": {"x": null, "y": 3}}` yields a
record in which the null-valued path `x` has no entry. -/
theorem no_null_in_record_witness :
    flatten_data (JsonValue.obj [("data", JsonValue.obj
        [("x", JsonValue.null), ("y", JsonValue.num 3)])]) "T"
      = some [("scrape_timestamp_utc", JsonValue.str "T"), ("DATA_Y", JsonValue.num 3)] ∧
    pyGet [("scrape_timestamp_utc", JsonValue.str "T"), ("DATA_Y", JsonValue.num 3)]
      "DATA_X" ≠ some JsonValue.null := by
  have hd : deep_flatten (JsonValue.obj [("x", JsonValue.null), ("y", JsonValue.num 3)])
      "DATA" "_" = [("DATA_X", JsonValue.null), ("DATA_Y", JsonValue.num 3)] := by
    simp [deep_flatten, flattenItems, flattenEntry, pyDict, pyUpdate, dictInsert,
      clean_key, pyUpper, replaceChar]
  have e1 : keep_field "scrape_timestamp_utc" (JsonValue.str "T") = true := by decide
  have e2 : keep_field "DATA_X" JsonValue.null = false := by decide
  have e3 : keep_field "DATA_Y" (JsonValue.num 3) = true := by decide
  have hfd : flatten_data (JsonValue.obj [("data", JsonValue.obj
      [("x", JsonValue.null), ("y", JsonValue.num 3)])]) "T"
      = some [("scrape_timestamp_utc", JsonValue.str "T"), ("DATA_Y", JsonValue.num 3)] := by
    simp [flatten_data, pyTruthy, pyGet, hd, pyUpdate, dictInsert,
      filter_redundant_fields, e1, e2, e3]
  exact ⟨hfd, no_null_in_record _ "T" _ hfd "DATA_X"⟩

/-- Claim C6, counterexample: the pair-list branch stores the second pair
component verbatim, so `{"g": [["a", [1, 2]]]}` flattens to a record whose
`G_A` entry is itself an array, not a scalar. -/
theorem scalar_values_counterexample :
    pyGet (deep_flatten (JsonValue.obj [("g", JsonValue.arr [JsonValue.arr
        [JsonValue.str "a", JsonValue.arr [JsonValue.num 1, JsonValue.num 2]]])]) "" "_") "G_A"
      = some (JsonValue.arr [JsonValue.num 1, JsonValue.num 2]) ∧
    isScalar (JsonValue.arr [JsonValue.num 1, JsonValue.num 2]) = false ∧
    isScalarOrNull (JsonValue.arr [JsonValue.num 1, JsonValue.num 2]) = false := by
  refine ⟨?_, rfl, rfl⟩
  simp [deep_flatten, flattenItems, flattenEntry, pairItems, pyDict, pyUpdate, dictInsert,
    is_key_value_list, clean_key, clean_field_name, pyUpper, replaceChar, pyGet]

/-- Claim C6, amended: every value stored by `deep_flatten` is a scalar or
null provided every pair-list second component and every fallback-branch
element of the input is a scalar or null; without that proviso the pair-list
and fallback branches copy arrays and objects into the record verbatim, and
null leaves are stored as null (they are removed later by the filter). -/
theorem flat_values_scalar :
    ∀ (v : JsonValue) (pk sep : String), scalarLeaves v = true →
      ∀ kv ∈ deep_flatten v pk sep, isScalarOrNull kv.2 = true := by
  refine deep_flatten.induct
    (fun v pk sep => scalarLeaves v = true →
      ∀ kv ∈ deep_flatten v pk sep, isScalarOrNull kv.2 = true)
    (fun pk sep fields => scalarLeavesFields fields = true →
      ∀ kv ∈ flattenItems pk sep fields, isScalarOrNull kv.2 = true)
    (fun pk sep key value => scalarLeaves value = true →
      ∀ kv ∈ flattenEntry pk sep key value, isScalarOrNull kv.2 = true)
    (fun nkc sep i elems => scalarLeavesList elems = true →
      ∀ kv ∈ recordItems nkc sep i elems, isScalarOrNull kv.2 = true)
    ?_ ?_ ?_ ?_ ?_ ?_ ?_ ?_ ?_ ?_ ?_
  · intro pk sep fields ih hs kv hkv
    rw [deep_flatten] at hkv
    exact ih (by simpa [scalarLeaves] using hs) kv (mem_pyDict hkv)
  · intro d pk sep hno hs kv hkv
    cases d with
    | obj fields => exact (hno fields rfl).elim
    | null => simp [deep_flatten] at hkv
    | bool b => simp [deep_flatten] at hkv
    | num n => simp [deep_flatten] at hkv
    | str s => simp [deep_flatten] at hkv
    | arr elems => simp [deep_flatten] at hkv
  · intro pk sep hs kv hkv
    simp [flattenItems] at hkv
  · intro pk sep k v rest ih1 ih2 hs kv hkv
    simp [scalarLeavesFields] at hs
    rw [flattenItems] at hkv
    rcases List.mem_append.mp hkv with h | h
    · exact ih1 hs.1 kv h
    · exact ih2 hs.2 kv h
  · intro pk sep key elems hkvl hs kv hkv
    simp only [scalarLeaves, hkvl, if_true] at hs
    simp [flattenEntry, hkvl] at hkv
    obtain ⟨s, w, hmem, hkveq⟩ := mem_pairItems hkv
    subst hkveq
    have := List.all_eq_true.mp hs _ hmem
    simpa using this
  · intro pk sep key new_key nkc elems hnkvl hdicts ih hs kv hkv
    simp [scalarLeaves, hnkvl, hdicts] at hs
    simp [flattenEntry, hnkvl, hdicts] at hkv
    have hnk : nkc = clean_key (if pk = "" then key else pk ++ sep ++ key) := by
      show clean_key new_key = _
      congr 1
      show (if h : pk ≠ "" then pk ++ sep ++ key else key) = _
      by_cases hne : pk = ""
      · rw [dif_neg (by simp [hne]), if_pos hne]
      · rw [dif_pos hne, if_neg hne]
    rw [hnk] at ih
    exact ih hs kv hkv
  · intro pk sep key elems hnkvl hndicts hs kv hkv
    simp only [scalarLeaves, hnkvl, if_false, hndicts] at hs
    simp [flattenEntry, hnkvl, hndicts] at hkv
    obtain ⟨j, _, hk2⟩ := mem_fallbackItems hkv
    exact List.all_eq_true.mp hs _ hk2
  · intro pk sep key new_key nkc fields ih hs kv hkv
    simp [flattenEntry] at hkv
    have hnk : nkc = clean_key (if pk = "" then key else pk ++ sep ++ key) := by
      show clean_key new_key = _
      congr 1
      show (if h : pk ≠ "" then pk ++ sep ++ key else key) = _
      by_cases hne : pk = ""
      · rw [dif_neg (by simp [hne]), if_pos hne]
      · rw [dif_pos hne, if_neg hne]
    rw [hnk] at ih
    exact ih hs kv hkv
  · intro pk sep key v hnarr hnobj hs kv hkv
    have hval : isScalarOrNull v = true := by
      cases v with
      | arr elems => exact (hnarr elems rfl).elim
      | obj fields => exact (hnobj fields rfl).elim
      | null => rfl
      | bool b => rfl
      | num n => rfl
      | str s => rfl
    cases v with
    | arr elems => exact (hnarr elems rfl).elim
    | obj fields => exact (hnobj fields rfl).elim
    | null =>
      simp [flattenEntry] at hkv
      subst hkv
      exact hval
    | bool b =>
      simp [flattenEntry] at hkv
      subst hkv
      exact hval
    | num n =>
      simp [flattenEntry] at hkv
      subst hkv
      exact hval
    | str s =>
      simp [flattenEntry] at hkv
      subst hkv
      exact hval
  · intro nkc sep i hs kv hkv
    simp [recordItems] at hkv
  · intro nkc sep i row rest ih1 ih2 hs kv hkv
    simp [scalarLeavesList] at hs
    rw [recordItems] at hkv
    rcases List.mem_append.mp hkv with h | h
    · exact ih1 hs.1 kv h
    · exact ih2 hs.2 kv h

/-- Witness for the amended C6: a pair list with a scalar second component
satisfies the proviso, and the stored value is indeed scalar. -/
theorem flat_values_scalar_witness :
    scalarLeaves (JsonValue.obj [("g", JsonValue.arr [JsonValue.arr
        [JsonValue.str "a", JsonValue.num 1]])]) = true ∧
    isScalarOrNull (JsonValue.num 1) = true := by
  have hsl : scalarLeaves (JsonValue.obj [("g", JsonValue.arr [JsonValue.arr
      [JsonValue.str "a", JsonValue.num 1]])]) = true := by
    simp [scalarLeaves, scalarLeavesFields, is_key_value_list, isScalarOrNull]
  have hmem : ("G_A", JsonValue.num 1) ∈ deep_flatten (JsonValue.obj [("g", JsonValue.arr
      [JsonValue.arr [JsonValue.str "a", JsonValue.num 1]])]) "" "_" := by
    simp [deep_flatten, flattenItems, flattenEntry, pairItems, pyDict, pyUpdate, dictInsert,
      is_key_value_list, clean_key, clean_field_name, pyUpper, replaceChar]
  exact ⟨hsl, flat_values_scalar _ "" "_" hsl ("G_A", JsonValue.num 1) hmem⟩

end Ercot
